import Mathlib

/-!
Shallow embedding of the EventHorizon evolutionary engine
(`EvolutionaryEngine` in the repository's evolution engine module).

Modelling conventions, stated once:
* JavaScript numbers are modelled as rationals (`ℚ`); integer-valued
  configuration fields (`maxGenerations`, `populationSize`) as `Int`.
  Division by zero in `ℚ` yields 0 (the source never divides by zero on
  states its own operations build, since stored check weights are never 0).
* Solution ids are strings in the source, produced by a time-and-randomness
  generator whose only required property is uniqueness; they are modelled as
  naturals drawn from a monotone counter `nextId` carried by the engine.
  Consistency-check ids `check_1, check_2, …` are modelled by the index
  `i + 1`.
* JavaScript objects used as dictionaries (`solutions`, `scores`,
  `generationHistory`) are modelled as insertion-ordered association lists;
  assigning a fresh key appends, assigning an existing key updates in place,
  matching JS object key order.
* `bestSolution` holds an object reference in the source; since every
  solution object also lives in the `solutions` dictionary, the reference is
  modelled as the solution's key, dereferenced through `solutions`.  This
  preserves the aliasing semantics: mutating a solution mutates what
  `bestSolution` refers to.
* Wall-clock values (`startTime`, `timestamp`) are modelled as the constant
  0; no operation's control flow depends on them.
* Dynamically-typed inputs are modelled with `Option` fields (`none` is a
  missing/`undefined` field); a consistency-check input is either a plain
  string or a record whose `description` may be absent (`undefined`).
  The truthiness tests of the source (`!data.problemStatement`,
  `check.weight ? … : 1.0`, `(data.maxGenerations as number) || 5`) are
  modelled exactly: the empty string and the number 0 are falsy.
* Each public operation returns the updated engine paired with
  `Except String payload`; the `.error` case models the source's caught
  exception turned into an `isError` payload.
-/

namespace EventHorizon

/-- Association-list lookup by key, first match wins (JS property read). -/
def alookup {β : Type} (k : Nat) : List (Nat × β) → Option β
  | [] => none
  | (k', v) :: t => if k = k' then some v else alookup k t

/-- Association-list update: replaces the entry at an existing key in place,
leaves the list unchanged when the key is absent (the engine only updates
existing keys). -/
def aupdate {β : Type} (k : Nat) (v : β) : List (Nat × β) → List (Nat × β)
  | [] => []
  | (k', v') :: t => if k = k' then (k, v) :: t else (k', v') :: aupdate k v t

/-- JS property assignment on a score map: overwrite an existing key in
place, append a fresh key at the end (JS object insertion order). -/
def setScore (k : Nat) (v : ℚ) : List (Nat × ℚ) → List (Nat × ℚ)
  | [] => [(k, v)]
  | (k', v') :: t => if k = k' then (k, v) :: t else (k', v') :: setScore k v t

/-- Push an id onto the generation bucket `g`, creating the bucket at the
end when absent (models `if (!hist[g]) hist[g] = []; hist[g].push(id)`). -/
def pushHist (g : Nat) (id : Nat) : List (Nat × List Nat) → List (Nat × List Nat)
  | [] => [(g, [id])]
  | (g', ids) :: t =>
    if g = g' then (g', ids ++ [id]) :: t else (g', ids) :: pushHist g id t

/-- Mirrors the source's `Solution` interface. -/
structure Solution where
  id : Nat
  content : String
  generation : Nat
  scores : List (Nat × ℚ)
  compositeScore : ℚ
  parentSolutions : List Nat
  timestamp : Nat
deriving DecidableEq

/-- Mirrors the source's `ConsistencyCheck` interface; `description` is
`Option String` because the source stores `check.description` verbatim,
which is `undefined` for a structured input lacking the field. -/
structure ConsistencyCheck where
  id : Nat
  description : Option String
  weight : ℚ
deriving DecidableEq

/-- Mirrors the source's `EvolutionState` interface. -/
structure EvolutionState where
  problemStatement : String
  consistencyChecks : List ConsistencyCheck
  currentGeneration : Nat
  maxGenerations : Int
  populationSize : Int
  convergenceThreshold : ℚ
  solutions : List (Nat × Solution)
  generationHistory : List (Nat × List Nat)
  bestSolution : Option Nat
  isComplete : Bool
  startTime : Nat
deriving DecidableEq

/-- Mirrors the source's `CrossoverRecommendation` interface. -/
structure CrossoverRecommendation where
  checkId : Nat
  bestSolutionId : Nat
  score : ℚ
  relevantContent : String
deriving DecidableEq

/-- The engine: the optional single session, plus the id-generator state. -/
structure EvolutionaryEngine where
  evolutionState : Option EvolutionState
  nextId : Nat
deriving DecidableEq

/-- Success test on an operation result. -/
def resultOk {α : Type} : Except String α → Bool
  | .ok _ => true
  | .error _ => false

/-- One element of the `consistencyChecks` input array: a plain string, or a
structured record whose fields may be absent. -/
inductive CheckInput where
  | str (s : String)
  | record (description : Option String) (weight : Option ℚ)
deriving DecidableEq

/-- Input bag for `startEvolution`; `none` models a missing field. -/
structure StartInput where
  problemStatement : Option String
  consistencyChecks : Option (List CheckInput)
  maxGenerations : Option Int
  populationSize : Option Int
  convergenceThreshold : Option ℚ
deriving DecidableEq

/-- Models `(input as number) || default`: missing and 0 give the default. -/
def orDefaultInt (v : Option Int) (d : Int) : Int :=
  match v with
  | none => d
  | some x => if x = 0 then d else x

/-- Models `(input as number) || default` for rational-valued fields. -/
def orDefaultRat (v : Option ℚ) (d : ℚ) : ℚ :=
  match v with
  | none => d
  | some x => if x = 0 then d else x

/-- Normalization of one consistency-check input, mirroring
`id: check_(i+1)`, `description: typeof check === 'string' ? check :
check.description`, `weight: typeof check === 'object' && check.weight ?
check.weight : 1.0`.  Note the truthiness test: an explicit weight 0 is
falsy and falls back to 1. -/
def normalizeCheck (index : Nat) (c : CheckInput) : ConsistencyCheck :=
  { id := index + 1
    description := match c with | .str s => some s | .record d _ => d
    weight :=
      match c with
      | .str _ => 1
      | .record _ w => match w with
        | some q => if q = 0 then 1 else q
        | none => 1 }

/-- Index-carrying map of `normalizeCheck` over the input array. -/
def normalizeChecks : Nat → List CheckInput → List ConsistencyCheck
  | _, [] => []
  | i, c :: t => normalizeCheck i c :: normalizeChecks (i + 1) t

/-- Success payload of `startEvolution` (the echoed configuration). -/
structure StartPayload where
  problemStatement : String
  consistencyChecks : List ConsistencyCheck
  currentGeneration : Nat
  maxGenerations : Int
  populationSize : Int
deriving DecidableEq

/-- The fresh session state `startEvolution` installs: normalized checks,
zeroed counters and empty collections, configuration defaults applied with
JS `||` semantics. -/
def initialState (ps : String) (rawChecks : List CheckInput) (input : StartInput) :
    EvolutionState :=
  { problemStatement := ps
    consistencyChecks := normalizeChecks 0 rawChecks
    currentGeneration := 0
    maxGenerations := orDefaultInt input.maxGenerations 5
    populationSize := orDefaultInt input.populationSize 3
    convergenceThreshold := orDefaultRat input.convergenceThreshold (19/20)
    solutions := []
    generationHistory := []
    bestSolution := none
    isComplete := false
    startTime := 0 }

/-- The source's `startEvolution`: validates `problemStatement` (truthy
string) and `consistencyChecks` (present array), then replaces the whole
session with `initialState`.  An empty checks array passes the
`!data.consistencyChecks` test because empty arrays are truthy in JS. -/
def startEvolution (engine : EvolutionaryEngine) (input : StartInput) :
    EvolutionaryEngine × Except String StartPayload :=
  match input.problemStatement with
  | none => (engine, .error "problemStatement is required and must be a string")
  | some ps =>
    if ps = "" then
      (engine, .error "problemStatement is required and must be a string")
    else
      match input.consistencyChecks with
      | none => (engine, .error "consistencyChecks is required and must be an array")
      | some rawChecks =>
        let st := initialState ps rawChecks input
        ({ engine with evolutionState := some st },
         .ok { problemStatement := ps
               consistencyChecks := st.consistencyChecks
               currentGeneration := 0
               maxGenerations := st.maxGenerations
               populationSize := st.populationSize })

/-- Input bag for `addSolution`. -/
structure AddInput where
  content : Option String
  parentSolutions : Option (List Nat)
deriving DecidableEq

/-- Success payload of `addSolution`. -/
structure AddPayload where
  solutionId : Nat
  generation : Nat
  currentPopulationSize : Nat
  targetPopulationSize : Int
deriving DecidableEq

/-- The freshly created solution of `addSolution`: stamped with the current
generation, empty scores, composite 0, the caller's parent list verbatim. -/
def newSolution (st : EvolutionState) (nid : Nat) (content : String)
    (parentSolutions : List Nat) : Solution :=
  { id := nid
    content := content
    generation := st.currentGeneration
    scores := []
    compositeScore := 0
    parentSolutions := parentSolutions
    timestamp := 0 }

/-- The session state after `addSolution` registers a solution: the entry
is appended to the `solutions` dictionary and its id pushed onto the
current generation's bucket. -/
def addApply (st : EvolutionState) (nid : Nat) (content : String)
    (parentSolutions : List Nat) : EvolutionState :=
  let sol := newSolution st nid content parentSolutions
  { st with
    solutions := st.solutions ++ [(sol.id, sol)]
    generationHistory := pushHist st.currentGeneration sol.id st.generationHistory }

/-- The source's `addSolution`: requires a session and a truthy string
`content`; creates a solution stamped with the current generation, empty
scores, composite 0, and appends its id to the current generation bucket. -/
def addSolution (engine : EvolutionaryEngine) (input : AddInput) :
    EvolutionaryEngine × Except String AddPayload :=
  match engine.evolutionState with
  | none => (engine, .error "Evolution not started. Call start_evolution first.")
  | some st =>
    match input.content with
    | none => (engine, .error "Solution content is required and must be a string")
    | some content =>
      if content = "" then
        (engine, .error "Solution content is required and must be a string")
      else
        let st' := addApply st (engine.nextId) content ((input.parentSolutions).getD [])
        ({ evolutionState := some st', nextId := engine.nextId + 1 },
         .ok { solutionId := engine.nextId
               generation := st.currentGeneration
               currentPopulationSize :=
                 ((alookup st.currentGeneration st'.generationHistory).getD []).length
               targetPopulationSize := st.populationSize })

/-- Input bag for `scoreSolution` (the unused `reasoning` field is omitted:
the source never stores or reads it). -/
structure ScoreInput where
  solutionId : Option Nat
  checkId : Option Nat
  score : Option ℚ
deriving DecidableEq

/-- Success payload of `scoreSolution`. -/
structure ScorePayload where
  solutionId : Nat
  checkId : Nat
  score : ℚ
  compositeScore : ℚ
  completedScores : Nat
  totalChecks : Nat
  isFullyScored : Bool
deriving DecidableEq

/-- The composite score exactly as `scoreSolution` recomputes it: the
weighted sum over all checks of the stored score (missing treated as 0)
divided by the total weight, both via left folds as in the source's
`reduce`. -/
def compositeOf (checks : List ConsistencyCheck) (scores : List (Nat × ℚ)) : ℚ :=
  (checks.foldl (fun sum check => sum + ((alookup check.id scores).getD 0) * check.weight) 0) /
    (checks.foldl (fun sum check => sum + check.weight) 0)

/-- Total weight of the session's checks. -/
def totalWeightOf (checks : List ConsistencyCheck) : ℚ :=
  checks.foldl (fun sum check => sum + check.weight) 0

/-- The mutated solution after a score write: the new score entry and the
recomputed composite (lines `solution.scores[checkId] = score` through
`solution.compositeScore = …`). -/
def scoredSolutionOf (checks : List ConsistencyCheck) (solution : Solution)
    (cid : Nat) (score : ℚ) : Solution :=
  { solution with
    scores := setScore cid score solution.scores
    compositeScore := compositeOf checks (setScore cid score solution.scores) }

/-- The session state after a successful score write: the solution is
mutated in place and `bestSolution` is updated opportunistically, comparing
through the reference (strict greater-than, ties keep the old best). -/
def scoreApply (st : EvolutionState) (sid cid : Nat) (score : ℚ)
    (solution : Solution) : EvolutionState :=
  let solution' := scoredSolutionOf st.consistencyChecks solution cid score
  let solutions := aupdate sid solution' st.solutions
  let bestSolution :=
    match st.bestSolution.bind (fun b => alookup b solutions) with
    | none => some sid
    | some best =>
      if best.compositeScore < solution'.compositeScore then some sid
      else st.bestSolution
  { st with solutions := solutions, bestSolution := bestSolution }

/-- The success payload of `scoreSolution`. -/
def scorePayloadOf (st : EvolutionState) (cid : Nat) (score : ℚ)
    (solution : Solution) : ScorePayload :=
  let newScores := setScore cid score solution.scores
  { solutionId := solution.id
    checkId := cid
    score := score
    compositeScore := compositeOf st.consistencyChecks newScores
    completedScores := newScores.length
    totalChecks := st.consistencyChecks.length
    isFullyScored := newScores.length = st.consistencyChecks.length }

/-- The source's `scoreSolution`: validations in source order, then the
score write, the composite recomputation, and the opportunistic
`bestSolution` update with strict greater-than. -/
def scoreSolution (engine : EvolutionaryEngine) (input : ScoreInput) :
    EvolutionaryEngine × Except String ScorePayload :=
  match engine.evolutionState with
  | none => (engine, .error "Evolution not started. Call start_evolution first.")
  | some st =>
    match input.solutionId with
    | none => (engine, .error "solutionId is required and must be a string")
    | some sid =>
      match input.checkId with
      | none => (engine, .error "checkId is required and must be a string")
      | some cid =>
        match input.score with
        | none => (engine, .error "score is required and must be a number between 0 and 1")
        | some score =>
          if score < 0 ∨ 1 < score then
            (engine, .error "score is required and must be a number between 0 and 1")
          else
            match alookup sid st.solutions with
            | none => (engine, .error "Solution not found")
            | some solution =>
              match st.consistencyChecks.find? (fun c => c.id == cid) with
              | none => (engine, .error "Consistency check not found")
              | some _ =>
                ({ engine with evolutionState := some (scoreApply st sid cid score solution) },
                 .ok (scorePayloadOf st cid score solution))

/-- Substring test, modelling JS `String.prototype.includes`. -/
def containsSubstr (s pat : String) : Bool :=
  decide (pat.toList <:+: s.toList)

/-- The source's `extractRelevantContent`: sentence split on `.`/`!`/`?`,
keywords are whitespace tokens of the lowercased description longer than 3
characters, keep sentences containing a keyword (case-insensitive), join
with a period; fall back to the first 200 characters plus an ellipsis. -/
def extractRelevantContent (content : String) (checkDescription : String) : String :=
  let sentences := (content.split (fun c => c = '.' ∨ c = '!' ∨ c = '?')).filter
    (fun s => s.trim.length > 0)
  let keywords := (checkDescription.toLower.split (fun c => c.isWhitespace)).filter
    (fun w => w.length > 3)
  let relevantSentences := sentences.filter (fun sentence =>
    keywords.any (fun keyword => containsSubstr sentence.toLower keyword))
  if relevantSentences.length > 0 then String.intercalate ". " relevantSentences ++ "."
  else content.take 200 ++ "..."

/-- The ids recorded for the current generation (`generationHistory[g] || []`). -/
def genSolutionIds (st : EvolutionState) : List Nat :=
  (alookup st.currentGeneration st.generationHistory).getD []

/-- The current generation's solutions, resolved through the `solutions`
dictionary (every recorded id resolves in any state the engine builds). -/
def currentGenSolutions (st : EvolutionState) : List Solution :=
  (genSolutionIds st).filterMap (fun id => alookup id st.solutions)

/-- The fully-scored subset of the current generation: a score recorded for
as many keys as there are checks. -/
def fullyScoredOf (st : EvolutionState) : List Solution :=
  (currentGenSolutions st).filter
    (fun s => s.scores.length == st.consistencyChecks.length)

/-- The source's per-check `reduce`: fold the tail with the head as initial
accumulator, replacing it only on a strictly greater value, so the first
occurrence of the maximum wins. -/
def pickBest {α : Type} (f : α → ℚ) (head : α) (tail : List α) : α :=
  tail.foldl (fun best current => if f best < f current then current else best) head

/-- Sequential effectful map, modelling a JS `.map` whose body may throw:
the first failure aborts the whole computation. -/
def mapExcept {α β : Type} (f : α → Except String β) : List α → Except String (List β)
  | [] => .ok []
  | a :: t =>
    match f a with
    | .error m => .error m
    | .ok b =>
      match mapExcept f t with
      | .error m => .error m
      | .ok bs => .ok (b :: bs)

/-- Per-check score used by the recommendation selection
(`current.scores[check.id] || 0`). -/
def checkScoreOf (cid : Nat) (s : Solution) : ℚ :=
  (alookup cid s.scores).getD 0

/-- The crossover-recommendation computation of `evolveGeneration`: one
entry per consistency check, selecting the best fully-scored solution for
that check via `pickBest`.  A `reduce` over an empty array throws in JS, and
reading `.toLowerCase()` of an absent description throws; both surface as
the operation's caught error. -/
def crossoverRecsFor (st : EvolutionState) (fullyScored : List Solution) :
    Except String (List CrossoverRecommendation) :=
  mapExcept (fun check =>
    match fullyScored with
    | [] => .error "Reduce of empty array with no initial value"
    | h :: t =>
      let bestForCheck := pickBest (checkScoreOf check.id) h t
      match check.description with
      | none => .error "Cannot read properties of undefined"
      | some d =>
        .ok { checkId := check.id
              bestSolutionId := bestForCheck.id
              score := (alookup check.id bestForCheck.scores).getD 0
              relevantContent := extractRelevantContent bestForCheck.content d })
    st.consistencyChecks

/-- JS `Math.max(...list)` over a nonempty list of composite scores. -/
def maxCompositeScore : List Solution → ℚ
  | [] => 0
  | h :: t => t.foldl (fun m s => max m s.compositeScore) h.compositeScore

/-- Average composite score of a list of solutions. -/
def avgCompositeScore (l : List Solution) : ℚ :=
  (l.foldl (fun sum s => sum + s.compositeScore) 0) / (l.length : ℚ)

/-- Success payload of `evolveGeneration`: either a completion report or an
evolution report with the recommendations. -/
inductive EvolvePayload where
  | complete (reason : String) (currentGeneration : Nat) (bestSolution : Option Nat)
      (finalScore : ℚ) (averageScore : ℚ)
  | evolved (newGeneration : Nat) (averageScore : ℚ) (bestScore : ℚ)
      (populationSize : Nat) (crossoverRecommendations : List CrossoverRecommendation)
deriving DecidableEq

/-- Statistics, ordered termination test and state change of a successful
`evolveGeneration`: convergence is tested first, then generation
exhaustion; on completion `isComplete` is set and the counter is left
alone, otherwise the counter is incremented. -/
def evolveOutcome (engine : EvolutionaryEngine) (st : EvolutionState)
    (fullyScored : List Solution) (recs : List CrossoverRecommendation) :
    EvolutionaryEngine × Except String EvolvePayload :=
  let avgScore := avgCompositeScore fullyScored
  let bestScore := maxCompositeScore fullyScored
  if st.convergenceThreshold ≤ bestScore ∨
      st.maxGenerations - 1 ≤ (st.currentGeneration : Int) then
    ({ engine with evolutionState := some { st with isComplete := true } },
     .ok (.complete
          (if st.convergenceThreshold ≤ bestScore then "convergence" else "max_generations")
          st.currentGeneration st.bestSolution bestScore avgScore))
  else
    ({ engine with
       evolutionState := some { st with currentGeneration := st.currentGeneration + 1 } },
     .ok (.evolved (st.currentGeneration + 1) avgScore bestScore fullyScored.length recs))

/-- The source's `evolveGeneration`: precondition checks, recommendation
computation, then `evolveOutcome`. -/
def evolveGeneration (engine : EvolutionaryEngine) :
    EvolutionaryEngine × Except String EvolvePayload :=
  match engine.evolutionState with
  | none => (engine, .error "Evolution not started. Call start_evolution first.")
  | some st =>
    if genSolutionIds st = [] then
      (engine, .error "No solutions in current generation")
    else
      match fullyScoredOf st with
      | [] => (engine, .error "No fully scored solutions in current generation")
      | h :: t =>
        match crossoverRecsFor st (h :: t) with
        | .error m => (engine, .error m)
        | .ok crossoverRecommendations =>
          evolveOutcome engine st (h :: t) crossoverRecommendations

/-- Status payload: the not-started shape or the active snapshot. -/
inductive StatusPayload where
  | notStarted
  | active (currentGeneration : Nat) (maxGenerations : Int) (populationSize : Nat)
      (targetPopulationSize : Int) (fullyScored : Nat) (bestSolution : Option Nat)
      (isComplete : Bool) (generationHistory : List (Nat × Nat))
deriving DecidableEq

/-- The source's `getEvolutionStatus`: read-only, never an error. -/
def getStatus (engine : EvolutionaryEngine) :
    EvolutionaryEngine × Except String StatusPayload :=
  match engine.evolutionState with
  | none => (engine, .ok .notStarted)
  | some st =>
    (engine,
     .ok (.active st.currentGeneration st.maxGenerations
          (currentGenSolutions st).length st.populationSize
          (fullyScoredOf st).length st.bestSolution st.isComplete
          (st.generationHistory.map (fun p => (p.1, p.2.length)))))

/-- The composite score the session's best solution currently reports,
reading through the reference (`bestSolution` aliases an entry of
`solutions`). -/
def bestComposite (engine : EvolutionaryEngine) : Option ℚ :=
  engine.evolutionState.bind fun st =>
    st.bestSolution.bind fun b =>
      (alookup b st.solutions).map (fun s => s.compositeScore)

/-! Concrete scenario used by the witnesses: one check, one unscored
solution, written as a literal session state. -/

def solW : Solution := ⟨0, "x", 0, [], 0, [], 0⟩

def stW2 : EvolutionState :=
  { problemStatement := "p"
    consistencyChecks := [⟨1, some "alpha", 1⟩]
    currentGeneration := 0
    maxGenerations := 5
    populationSize := 3
    convergenceThreshold := 1
    solutions := [(0, solW)]
    generationHistory := [(0, [0])]
    bestSolution := none
    isComplete := false
    startTime := 0 }

def engineW2 : EvolutionaryEngine := ⟨some stW2, 1⟩

/-! Scenario for the evolution witnesses: the single solution is fully
scored at 1 and the threshold is 1, so convergence fires. -/

def solW3 : Solution := ⟨0, "x", 0, [(1, 1)], 1, [], 0⟩

def stW3 : EvolutionState :=
  { problemStatement := "p"
    consistencyChecks := [⟨1, some "alpha", 1⟩]
    currentGeneration := 0
    maxGenerations := 5
    populationSize := 3
    convergenceThreshold := 1
    solutions := [(0, solW3)]
    generationHistory := [(0, [0])]
    bestSolution := some 0
    isComplete := false
    startTime := 0 }

def engineW3 : EvolutionaryEngine := ⟨some stW3, 1⟩

/-! Reachability: engines produced from an idle engine by the five public
operations. -/

inductive Step : EvolutionaryEngine → EvolutionaryEngine → Prop where
  | start (e : EvolutionaryEngine) (i : StartInput) : Step e (startEvolution e i).1
  | add (e : EvolutionaryEngine) (i : AddInput) : Step e (addSolution e i).1
  | score (e : EvolutionaryEngine) (i : ScoreInput) : Step e (scoreSolution e i).1
  | evolve (e : EvolutionaryEngine) : Step e (evolveGeneration e).1
  | status (e : EvolutionaryEngine) : Step e (getStatus e).1

inductive Reachable : EvolutionaryEngine → Prop where
  | init (n : Nat) : Reachable ⟨none, n⟩
  | step {e e' : EvolutionaryEngine} : Reachable e → Step e e' → Reachable e'

/-- The bookkeeping invariant of a live session: solution keys match the
stored ids and stay below the id counter, every id recorded in a
generation bucket resolves to a solution stamped with that generation, and
every solution's id sits in the bucket of its own generation. -/
structure StateInv (st : EvolutionState) (nextId : Nat) : Prop where
  keysMatch : ∀ (id : Nat) (sol : Solution), alookup id st.solutions = some sol → sol.id = id
  keysBound : ∀ (id : Nat) (sol : Solution), alookup id st.solutions = some sol → id < nextId
  histSound : ∀ (g : Nat) (ids : List Nat), alookup g st.generationHistory = some ids →
    ∀ id ∈ ids, ∃ sol, alookup id st.solutions = some sol ∧ sol.generation = g
  inOwnBucket : ∀ (id : Nat) (sol : Solution), alookup id st.solutions = some sol →
    ∃ ids, alookup sol.generation st.generationHistory = some ids ∧ id ∈ ids

def EngineInv (e : EvolutionaryEngine) : Prop :=
  ∀ st, e.evolutionState = some st → StateInv st e.nextId

/-! Reachable concrete scenario for the C8 witness. -/

def engineR0 : EvolutionaryEngine := ⟨none, 0⟩

def startInputR : StartInput := ⟨some "p", some [.str "alpha"], none, none, none⟩

def engineR1 : EvolutionaryEngine := (startEvolution engineR0 startInputR).1

def engineR2 : EvolutionaryEngine := (addSolution engineR1 ⟨some "x", none⟩).1

def stR2 : EvolutionState := (engineR2.evolutionState).getD (initialState "p" [] startInputR)

/-! Association-list lemmas. -/

theorem alookup_mem {β : Type} {k : Nat} {v : β} :
    ∀ {l : List (Nat × β)}, alookup k l = some v → (k, v) ∈ l := by
  intro l
  induction l with
  | nil => intro h; simp [alookup] at h
  | cons p t ih =>
    intro h
    rw [alookup] at h
    split at h
    · next heq =>
      injection h with hv
      rw [List.mem_cons]
      left
      subst heq hv
      rfl
    · simp [List.mem_cons, ih h]

theorem alookup_append_of_some {β : Type} {k : Nat} {v : β} {l₁ l₂ : List (Nat × β)}
    (h : alookup k l₁ = some v) : alookup k (l₁ ++ l₂) = some v := by
  induction l₁ with
  | nil => simp [alookup] at h
  | cons p t ih =>
    rw [alookup] at h
    rw [List.cons_append, alookup]
    split at h <;> simp_all [alookup]

theorem alookup_append_of_none {β : Type} {k : Nat} {l₁ l₂ : List (Nat × β)}
    (h : alookup k l₁ = none) : alookup k (l₁ ++ l₂) = alookup k l₂ := by
  induction l₁ with
  | nil => simp
  | cons p t ih =>
    rw [alookup] at h
    rw [List.cons_append, alookup]
    split at h <;> simp_all

theorem alookup_aupdate_ne {β : Type} {k k₀ : Nat} (hne : k ≠ k₀) (v : β) :
    ∀ (l : List (Nat × β)), alookup k (aupdate k₀ v l) = alookup k l := by
  intro l
  induction l with
  | nil => simp [aupdate]
  | cons p t ih =>
    rw [aupdate]
    split
    · next heq =>
      rw [alookup, alookup, if_neg hne]
      subst heq
      rw [if_neg hne]
    · rw [alookup, alookup, ih]

theorem alookup_aupdate_self {β : Type} {k₀ : Nat} {w : β} (v : β)
    {l : List (Nat × β)} (h : alookup k₀ l = some w) :
    alookup k₀ (aupdate k₀ v l) = some v := by
  induction l with
  | nil => simp [alookup] at h
  | cons p t ih =>
    rw [alookup] at h
    rw [aupdate]
    split at h
    · next heq => rw [if_pos heq, alookup, if_pos rfl]
    · next heq => rw [if_neg heq, alookup, if_neg heq, ih h]

theorem aupdate_eq_of_alookup {β : Type} {k₀ : Nat} {v : β} :
    ∀ {l : List (Nat × β)}, alookup k₀ l = some v → aupdate k₀ v l = l := by
  intro l
  induction l with
  | nil => intro h; simp [alookup] at h
  | cons p t ih =>
    intro h
    rw [alookup] at h
    rw [aupdate]
    split at h
    · next heq => cases h; rw [if_pos heq]; subst heq; rfl
    · next heq => rw [if_neg heq, ih h]

theorem alookup_setScore_self (k : Nat) (v : ℚ) :
    ∀ (m : List (Nat × ℚ)), alookup k (setScore k v m) = some v := by
  intro m
  induction m with
  | nil => simp [setScore, alookup]
  | cons p t ih =>
    rw [setScore]
    split
    · rw [alookup, if_pos rfl]
    · next heq => rw [alookup, if_neg heq, ih]

theorem alookup_setScore_ne {k' k : Nat} (hne : k' ≠ k) (v : ℚ) :
    ∀ (m : List (Nat × ℚ)), alookup k' (setScore k v m) = alookup k' m := by
  intro m
  induction m with
  | nil => simp [setScore, alookup, hne]
  | cons p t ih =>
    rw [setScore]
    split
    · next heq =>
      subst heq
      rw [alookup, alookup, if_neg hne, if_neg hne]
    · rw [alookup, alookup, ih]

theorem setScore_setScore_same (k : Nat) (v : ℚ) :
    ∀ (m : List (Nat × ℚ)), setScore k v (setScore k v m) = setScore k v m := by
  intro m
  induction m with
  | nil => simp [setScore]
  | cons p t ih =>
    rw [setScore]
    split
    · rw [setScore, if_pos rfl]
    · next heq => rw [setScore, if_neg heq, ih]

theorem setScore_mem {k : Nat} {v : ℚ} :
    ∀ {m : List (Nat × ℚ)} {p : Nat × ℚ}, p ∈ setScore k v m → p ∈ m ∨ p = (k, v) := by
  intro m
  induction m with
  | nil => intro p hp; rw [setScore] at hp; simp at hp; right; exact hp
  | cons q t ih =>
    intro p hp
    rw [setScore] at hp
    split at hp
    · rcases List.mem_cons.mp hp with h | h
      · right; exact h
      · left; exact List.mem_cons_of_mem _ h
    · rcases List.mem_cons.mp hp with h | h
      · left; exact h ▸ List.mem_cons_self _ _
      · rcases ih h with h' | h'
        · left; exact List.mem_cons_of_mem _ h'
        · right; exact h'

theorem alookup_pushHist_self (g id : Nat) :
    ∀ (h : List (Nat × List Nat)),
      alookup g (pushHist g id h) = some ((alookup g h).getD [] ++ [id]) := by
  intro h
  induction h with
  | nil => simp [pushHist, alookup]
  | cons p t ih =>
    rw [pushHist]
    split
    · next heq => rw [alookup, if_pos heq, alookup, if_pos heq]; rfl
    · next heq => rw [alookup, if_neg heq, alookup, if_neg heq, ih]

theorem alookup_pushHist_ne {g' g : Nat} (hne : g' ≠ g) (id : Nat) :
    ∀ (h : List (Nat × List Nat)), alookup g' (pushHist g id h) = alookup g' h := by
  intro h
  induction h with
  | nil => simp [pushHist, alookup, hne]
  | cons p t ih =>
    rw [pushHist]
    split
    · next heq =>
      subst heq
      rw [alookup, alookup, if_neg hne, if_neg hne]
    · rw [alookup, alookup, ih]

/-! Fold-to-sum bridging and composite-score bounds. -/

theorem weightedFoldl_eq (scores : List (Nat × ℚ)) :
    ∀ (checks : List ConsistencyCheck) (a : ℚ),
      List.foldl (fun sum check => sum + ((alookup check.id scores).getD 0) * check.weight) a checks =
        a + (checks.map (fun c => ((alookup c.id scores).getD 0) * c.weight)).sum := by
  intro checks
  induction checks with
  | nil => intro a; simp
  | cons c t ih => intro a; simp [ih, add_assoc]

theorem weightFoldl_eq :
    ∀ (checks : List ConsistencyCheck) (a : ℚ),
      List.foldl (fun sum check => sum + check.weight) a checks =
        a + (checks.map (fun c => c.weight)).sum := by
  intro checks
  induction checks with
  | nil => intro a; simp
  | cons c t ih => intro a; simp [ih, add_assoc]

theorem compositeOf_eq (checks : List ConsistencyCheck) (scores : List (Nat × ℚ)) :
    compositeOf checks scores =
      (checks.map (fun c => ((alookup c.id scores).getD 0) * c.weight)).sum /
        (checks.map (fun c => c.weight)).sum := by
  rw [compositeOf, weightedFoldl_eq, weightFoldl_eq, zero_add, zero_add]

theorem totalWeightOf_eq (checks : List ConsistencyCheck) :
    totalWeightOf checks = (checks.map (fun c => c.weight)).sum := by
  rw [totalWeightOf, weightFoldl_eq, zero_add]

theorem compositeOf_nonneg {checks : List ConsistencyCheck} {scores : List (Nat × ℚ)}
    (hw : ∀ c ∈ checks, 0 ≤ c.weight)
    (hs : ∀ p ∈ scores, 0 ≤ p.2) :
    0 ≤ compositeOf checks scores := by
  rw [compositeOf_eq]
  apply div_nonneg
  · apply List.sum_nonneg
    intro x hx
    rcases List.mem_map.mp hx with ⟨c, hc, rfl⟩
    apply mul_nonneg _ (hw c hc)
    cases hv : alookup c.id scores with
    | none => simp
    | some v => simpa using hs _ (alookup_mem hv)
  · apply List.sum_nonneg
    intro x hx
    rcases List.mem_map.mp hx with ⟨c, hc, rfl⟩
    exact hw c hc

theorem compositeOf_le_one {checks : List ConsistencyCheck} {scores : List (Nat × ℚ)}
    (hw : ∀ c ∈ checks, 0 ≤ c.weight)
    (htw : 0 < totalWeightOf checks)
    (hs : ∀ p ∈ scores, p.2 ≤ 1) :
    compositeOf checks scores ≤ 1 := by
  rw [compositeOf_eq]
  rw [totalWeightOf_eq] at htw
  rw [div_le_one htw]
  apply List.sum_le_sum
  intro c hc
  have hle : (alookup c.id scores).getD 0 ≤ 1 := by
    cases hv : alookup c.id scores with
    | none => simp
    | some v => simpa using hs _ (alookup_mem hv)
  calc ((alookup c.id scores).getD 0) * c.weight
      ≤ 1 * c.weight := mul_le_mul_of_nonneg_right hle (hw c hc)
    _ = c.weight := one_mul _

theorem compositeOf_setScore_mono {checks : List ConsistencyCheck}
    {scores : List (Nat × ℚ)} {k : Nat} {v : ℚ}
    (hw : ∀ c ∈ checks, 0 ≤ c.weight)
    (htw : 0 < totalWeightOf checks)
    (hv : (alookup k scores).getD 0 ≤ v) :
    compositeOf checks scores ≤ compositeOf checks (setScore k v scores) := by
  rw [compositeOf_eq, compositeOf_eq]
  rw [totalWeightOf_eq] at htw
  apply (div_le_div_iff_of_pos_right htw).mpr
  apply List.sum_le_sum
  intro c hc
  by_cases hk : c.id = k
  · subst hk
    rw [alookup_setScore_self]
    exact mul_le_mul_of_nonneg_right (by simpa using hv) (hw c hc)
  · rw [alookup_setScore_ne hk]

/-! Specification of the source's `reduce`-based best selection: it returns
the first occurrence of the maximum. -/

theorem pickBest_cons {α : Type} (f : α → ℚ) (h c : α) (t : List α) :
    pickBest f h (c :: t) = pickBest f (if f h < f c then c else h) t := by
  rw [pickBest, pickBest, List.foldl_cons]

theorem pickBest_spec {α : Type} (f : α → ℚ) :
    ∀ (t : List α) (h : α),
      ∃ i, i < (h :: t).length ∧ (h :: t)[i]? = some (pickBest f h t) ∧
        (∀ x ∈ h :: t, f x ≤ f (pickBest f h t)) ∧
        (∀ x ∈ (h :: t).take i, f x < f (pickBest f h t)) := by
  intro t
  induction t with
  | nil =>
    intro h
    exact ⟨0, by simp, by simp [pickBest], by simp [pickBest], by simp⟩
  | cons c t ih =>
    intro h
    rw [pickBest_cons]
    by_cases hc : f h < f c
    · rw [if_pos hc]
      obtain ⟨i, hilen, hget, hmax, hlt⟩ := ih c
      refine ⟨i + 1, by simpa using hilen, by simpa using hget, ?_, ?_⟩
      · intro x hx
        rcases List.mem_cons.mp hx with rfl | hx'
        · exact le_of_lt (lt_of_lt_of_le hc (hmax c (List.mem_cons_self c t)))
        · exact hmax x hx'
      · intro x hx
        rw [List.take_succ_cons] at hx
        rcases List.mem_cons.mp hx with rfl | hx'
        · exact lt_of_lt_of_le hc (hmax c (List.mem_cons_self c t))
        · exact hlt x hx'
    · rw [if_neg hc]
      obtain ⟨i, hilen, hget, hmax, hlt⟩ := ih h
      have hch : f c ≤ f h := le_of_not_lt hc
      have hmax' : ∀ x ∈ h :: c :: t, f x ≤ f (pickBest f h t) := by
        intro x hx
        rcases List.mem_cons.mp hx with hxe | hx'
        · rw [hxe]; exact hmax h (List.mem_cons_self h t)
        · rcases List.mem_cons.mp hx' with hxe | hx''
          · rw [hxe]; exact le_trans hch (hmax h (List.mem_cons_self h t))
          · exact hmax x (List.mem_cons_of_mem h hx'')
      match i, hget, hlt with
      | 0, hget, hlt =>
        rw [List.getElem?_cons_zero] at hget
        injection hget with hb
        refine ⟨0, by simp, by simp [← hb], hmax', by simp⟩
      | j + 1, hget, hlt =>
        rw [List.getElem?_cons_succ] at hget
        have hhb : f h < f (pickBest f h t) :=
          hlt h (by rw [List.take_succ_cons]; exact List.mem_cons_self h _)
        refine ⟨j + 2, ?_, ?_, hmax', ?_⟩
        · simp only [List.length_cons] at hilen ⊢
          omega
        · rw [List.getElem?_cons_succ, List.getElem?_cons_succ]
          exact hget
        · intro x hx
          rw [List.take_succ_cons, List.take_succ_cons] at hx
          rcases List.mem_cons.mp hx with hxe | hx'
          · rw [hxe]; exact hhb
          · rcases List.mem_cons.mp hx' with hxe | hx''
            · rw [hxe]; exact lt_of_le_of_lt hch hhb
            · exact hlt x (by rw [List.take_succ_cons]; exact List.mem_cons_of_mem h hx'')

/-! Characterization of a successful `mapExcept`. -/

theorem mapExcept_ok {α β : Type} (f : α → Except String β) :
    ∀ (l : List α) (out : List β), mapExcept f l = .ok out →
      out.length = l.length ∧
        ∀ (i : Nat) (a : α), l[i]? = some a → ∃ b, out[i]? = some b ∧ f a = .ok b := by
  intro l
  induction l with
  | nil =>
    intro out h
    rw [mapExcept] at h
    injection h with hout
    subst hout
    exact ⟨rfl, by intro i a ha; simp at ha⟩
  | cons x t ih =>
    intro out h
    rw [mapExcept] at h
    split at h
    · exact absurd h (by simp)
    · next b hb =>
      split at h
      · exact absurd h (by simp)
      · next bs hbs =>
        injection h with hout
        subst hout
        obtain ⟨hlen, hinner⟩ := ih bs hbs
        refine ⟨by simp [hlen], ?_⟩
        intro i a ha
        match i with
        | 0 =>
          rw [List.getElem?_cons_zero] at ha
          injection ha with ha
          subst ha
          exact ⟨b, List.getElem?_cons_zero, hb⟩
        | j + 1 =>
          rw [List.getElem?_cons_succ] at ha
          obtain ⟨b', hb', hfb'⟩ := hinner j a ha
          exact ⟨b', by rw [List.getElem?_cons_succ]; exact hb', hfb'⟩

/-! Shape lemmas: each fallible operation either fails leaving the engine
untouched, or takes its success branch with all validations established. -/

theorem startEvolution_shape (e : EvolutionaryEngine) (i : StartInput) :
    (∃ m, startEvolution e i = (e, .error m)) ∨
    (∃ ps rawChecks, i.problemStatement = some ps ∧ ps ≠ "" ∧
      i.consistencyChecks = some rawChecks ∧
      startEvolution e i =
        ({ e with evolutionState := some (initialState ps rawChecks i) },
         .ok { problemStatement := ps
               consistencyChecks := (initialState ps rawChecks i).consistencyChecks
               currentGeneration := 0
               maxGenerations := (initialState ps rawChecks i).maxGenerations
               populationSize := (initialState ps rawChecks i).populationSize })) := by
  unfold startEvolution
  split
  · left; exact ⟨_, rfl⟩
  · next ps hps =>
    split
    · left; exact ⟨_, rfl⟩
    · next hne =>
      split
      · left; exact ⟨_, rfl⟩
      · next rawChecks hrc =>
        right
        exact ⟨ps, rawChecks, hps, hne, hrc, rfl⟩

theorem addSolution_shape (e : EvolutionaryEngine) (i : AddInput) :
    (∃ m, addSolution e i = (e, .error m)) ∨
    (∃ st content, e.evolutionState = some st ∧ i.content = some content ∧ content ≠ "" ∧
      addSolution e i =
        ({ evolutionState := some (addApply st e.nextId content ((i.parentSolutions).getD [])),
           nextId := e.nextId + 1 },
         .ok { solutionId := e.nextId
               generation := st.currentGeneration
               currentPopulationSize :=
                 ((alookup st.currentGeneration
                   (addApply st e.nextId content ((i.parentSolutions).getD [])).generationHistory).getD []).length
               targetPopulationSize := st.populationSize })) := by
  unfold addSolution
  split
  · left; exact ⟨_, rfl⟩
  · next st hst =>
    split
    · left; exact ⟨_, rfl⟩
    · next content hcontent =>
      split
      · left; exact ⟨_, rfl⟩
      · next hne =>
        right
        exact ⟨st, content, hst, hcontent, hne, rfl⟩

theorem scoreSolution_shape (e : EvolutionaryEngine) (i : ScoreInput) :
    (∃ m, scoreSolution e i = (e, .error m)) ∨
    (∃ st sid cid s sol chk,
      e.evolutionState = some st ∧ i.solutionId = some sid ∧ i.checkId = some cid ∧
      i.score = some s ∧ 0 ≤ s ∧ s ≤ 1 ∧
      alookup sid st.solutions = some sol ∧
      st.consistencyChecks.find? (fun c => c.id == cid) = some chk ∧
      scoreSolution e i =
        ({ e with evolutionState := some (scoreApply st sid cid s sol) },
         .ok (scorePayloadOf st cid s sol))) := by
  unfold scoreSolution
  split
  · left; exact ⟨_, rfl⟩
  · next st hst =>
    split
    · left; exact ⟨_, rfl⟩
    · next sid hsid =>
      split
      · left; exact ⟨_, rfl⟩
      · next cid hcid =>
        split
        · left; exact ⟨_, rfl⟩
        · next s hs =>
          split
          · left; exact ⟨_, rfl⟩
          · next hrange =>
            split
            · left; exact ⟨_, rfl⟩
            · next sol hsol =>
              split
              · left; exact ⟨_, rfl⟩
              · next chk hchk =>
                right
                push_neg at hrange
                exact ⟨st, sid, cid, s, sol, chk, hst, hsid, hcid, hs,
                  hrange.1, hrange.2, hsol, hchk, rfl⟩

theorem evolveGeneration_shape (e : EvolutionaryEngine) :
    (∃ m, evolveGeneration e = (e, .error m)) ∨
    (∃ st h t recs,
      e.evolutionState = some st ∧ genSolutionIds st ≠ [] ∧
      fullyScoredOf st = h :: t ∧
      crossoverRecsFor st (h :: t) = .ok recs ∧
      evolveGeneration e = evolveOutcome e st (h :: t) recs) := by
  unfold evolveGeneration
  split
  · left; exact ⟨_, rfl⟩
  · next st hst =>
    split
    · left; exact ⟨_, rfl⟩
    · next hids =>
      split
      · left; exact ⟨_, rfl⟩
      · next h t hfs =>
        split
        · left; exact ⟨_, rfl⟩
        · next recs hrecs =>
          right
          exact ⟨st, h, t, recs, hst, hids, hfs, hrecs, rfl⟩

/-! Claim theorems. -/

/-- C5: whenever an operation returns an error payload (validation,
not-found, not-started or precondition error), the engine state is exactly
the state before the call; in particular a `scoreSolution` call whose score
lies outside [0,1] changes nothing, and an `evolveGeneration` call failing
its empty-generation precondition leaves `currentGeneration` and
`isComplete` (indeed the whole state) unchanged; `getStatus` never mutates. -/
theorem error_payloads_leave_state_unchanged :
    (∀ (e : EvolutionaryEngine) (i : StartInput),
      resultOk (startEvolution e i).2 = false → (startEvolution e i).1 = e) ∧
    (∀ (e : EvolutionaryEngine) (i : AddInput),
      resultOk (addSolution e i).2 = false → (addSolution e i).1 = e) ∧
    (∀ (e : EvolutionaryEngine) (i : ScoreInput),
      resultOk (scoreSolution e i).2 = false → (scoreSolution e i).1 = e) ∧
    (∀ (e : EvolutionaryEngine),
      resultOk (evolveGeneration e).2 = false → (evolveGeneration e).1 = e) ∧
    (∀ (e : EvolutionaryEngine), (getStatus e).1 = e) ∧
    (∀ (e : EvolutionaryEngine) (sid cid : Option Nat) (s : ℚ), (s < 0 ∨ 1 < s) →
      resultOk (scoreSolution e ⟨sid, cid, some s⟩).2 = false ∧
      (scoreSolution e ⟨sid, cid, some s⟩).1 = e) ∧
    (∀ (e : EvolutionaryEngine) (st : EvolutionState),
      e.evolutionState = some st → genSolutionIds st = [] →
      resultOk (evolveGeneration e).2 = false ∧ (evolveGeneration e).1 = e) := by
  refine ⟨?_, ?_, ?_, ?_, ?_, ?_, ?_⟩
  · intro e i hfail
    rcases startEvolution_shape e i with ⟨m, hm⟩ | ⟨ps, rc, _, _, _, heq⟩
    · rw [hm]
    · rw [heq] at hfail; simp [resultOk] at hfail
  · intro e i hfail
    rcases addSolution_shape e i with ⟨m, hm⟩ | ⟨st, c, _, _, _, heq⟩
    · rw [hm]
    · rw [heq] at hfail; simp [resultOk] at hfail
  · intro e i hfail
    rcases scoreSolution_shape e i with ⟨m, hm⟩ | ⟨st, sid, cid, s, sol, chk, _, _, _, _, _, _, _, _, heq⟩
    · rw [hm]
    · rw [heq] at hfail; simp [resultOk] at hfail
  · intro e hfail
    rcases evolveGeneration_shape e with ⟨m, hm⟩ | ⟨st, h, t, recs, _, _, _, _, heq⟩
    · rw [hm]
    · rw [heq] at hfail
      rw [evolveOutcome] at hfail
      split at hfail <;> simp [resultOk] at hfail
  · intro e
    rw [getStatus]
    split <;> rfl
  · intro e sid cid s hbad
    rcases scoreSolution_shape e ⟨sid, cid, some s⟩ with ⟨m, hm⟩ |
      ⟨st, sid', cid', s', sol, chk, hst, hsid, hcid, hs, h0, h1, hsol, hchk, heq⟩
    · rw [hm]; exact ⟨rfl, rfl⟩
    · injection hs with hss
      subst hss
      rcases hbad with hb | hb
      · exact absurd h0 (not_le_of_lt hb)
      · exact absurd h1 (not_le_of_lt hb)
  · intro e st hstate hempty
    rcases evolveGeneration_shape e with ⟨m, hm⟩ | ⟨st', h, t, recs, hst', hids, _, _, heq⟩
    · rw [hm]; exact ⟨rfl, rfl⟩
    · rw [hstate] at hst'
      injection hst' with hsteq
      subst hsteq
      exact absurd hempty hids

/-- C5 witness: a concrete failing call (score 3/2 on an idle engine) leaves
the engine unchanged and reports failure. -/
theorem error_payloads_leave_state_unchanged_witness :
    resultOk (scoreSolution ⟨none, 0⟩ ⟨some 0, some 1, some (3/2)⟩).2 = false ∧
    (scoreSolution ⟨none, 0⟩ ⟨some 0, some 1, some (3/2)⟩).1 = (⟨none, 0⟩ : EvolutionaryEngine) :=
  error_payloads_leave_state_unchanged.2.2.2.2.2.1 ⟨none, 0⟩ (some 0) (some 1) (3/2)
    (by norm_num)

/-- C4: with non-negative weights of positive total and stored per-check
scores in [0,1], a successful `scoreSolution` reports a composite score in
the closed interval [0,1]. -/
theorem composite_in_unit_interval
    (e : EvolutionaryEngine) (st : EvolutionState) (i : ScoreInput) (sid : Nat) (sol : Solution)
    (hst : e.evolutionState = some st)
    (hw : ∀ c ∈ st.consistencyChecks, 0 ≤ c.weight)
    (htw : 0 < totalWeightOf st.consistencyChecks)
    (hsid : i.solutionId = some sid)
    (hsol : alookup sid st.solutions = some sol)
    (hs : ∀ p ∈ sol.scores, 0 ≤ p.2 ∧ p.2 ≤ 1)
    (hok : resultOk (scoreSolution e i).2 = true) :
    ∃ p, (scoreSolution e i).2 = .ok p ∧ 0 ≤ p.compositeScore ∧ p.compositeScore ≤ 1 := by
  rcases scoreSolution_shape e i with ⟨m, hm⟩ |
    ⟨st', sid', cid, s, sol', chk, hst', hsid', hcid, hsv, h0, h1, hsol', hchk, heq⟩
  · rw [hm] at hok; simp [resultOk] at hok
  · rw [hst] at hst'
    injection hst' with hsteq
    subst hsteq
    rw [hsid] at hsid'
    injection hsid' with hsideq
    subst hsideq
    rw [hsol] at hsol'
    injection hsol' with hsoleq
    subst hsoleq
    refine ⟨scorePayloadOf st cid s sol, by rw [heq], ?_, ?_⟩
    · apply compositeOf_nonneg hw
      intro p hp
      rcases setScore_mem hp with hmem | hcv
      · exact (hs p hmem).1
      · rw [hcv]; exact h0
    · apply compositeOf_le_one hw htw
      intro p hp
      rcases setScore_mem hp with hmem | hcv
      · exact (hs p hmem).2
      · rw [hcv]; exact h1

/-- C4 witness: scoring the concrete solution 1 on the only check yields a
composite score inside [0,1]. -/
theorem composite_in_unit_interval_witness :
    ∃ p, (scoreSolution engineW2 ⟨some 0, some 1, some 1⟩).2 = .ok p ∧
      0 ≤ p.compositeScore ∧ p.compositeScore ≤ 1 :=
  composite_in_unit_interval engineW2 stW2 ⟨some 0, some 1, some 1⟩ 0 solW
    rfl (by decide) (by norm_num [totalWeightOf, stW2]) rfl (by decide) (by decide)
    (by norm_num [scoreSolution, engineW2, stW2, solW, alookup, resultOk, List.find?])

/-- C6 counterexample: contrary to the claim, `start` with an empty
`consistencyChecks` sequence succeeds and installs a session, and a
structured record lacking a `description` is accepted as well. -/
theorem startEvolution_accepts_empty_checks :
    resultOk (startEvolution ⟨none, 0⟩ ⟨some "p", some [], none, none, none⟩).2 = true ∧
    (startEvolution ⟨none, 0⟩ ⟨some "p", some [], none, none, none⟩).1.evolutionState ≠ none ∧
    resultOk (startEvolution ⟨none, 0⟩
      ⟨some "p", some [.record none none], none, none, none⟩).2 = true := by
  refine ⟨rfl, ?_, rfl⟩
  intro h
  simp [startEvolution, initialState] at h

/-- C6 (amended): `start` fails with a validation error — leaving any prior
session untouched — exactly when `problemStatement` is missing or empty or
`consistencyChecks` is missing; any present checks array, including the
empty one and records lacking a description, is accepted and the session is
created or replaced wholesale. -/
theorem startEvolution_validation_behavior :
    (∀ (e : EvolutionaryEngine) (i : StartInput), i.problemStatement = none →
      resultOk (startEvolution e i).2 = false ∧ (startEvolution e i).1 = e) ∧
    (∀ (e : EvolutionaryEngine) (i : StartInput), i.problemStatement = some "" →
      resultOk (startEvolution e i).2 = false ∧ (startEvolution e i).1 = e) ∧
    (∀ (e : EvolutionaryEngine) (i : StartInput), i.consistencyChecks = none →
      resultOk (startEvolution e i).2 = false ∧ (startEvolution e i).1 = e) ∧
    (∀ (e : EvolutionaryEngine) (ps : String) (l : List CheckInput)
      (mg p : Option Int) (ct : Option ℚ), ps ≠ "" →
      resultOk (startEvolution e ⟨some ps, some l, mg, p, ct⟩).2 = true ∧
      (startEvolution e ⟨some ps, some l, mg, p, ct⟩).1.evolutionState =
        some (initialState ps l ⟨some ps, some l, mg, p, ct⟩)) := by
  refine ⟨?_, ?_, ?_, ?_⟩
  · intro e i hnone
    rcases startEvolution_shape e i with ⟨m, hm⟩ | ⟨ps, rc, hps, _, _, heq⟩
    · rw [hm]; exact ⟨rfl, rfl⟩
    · rw [hnone] at hps; exact absurd hps (by simp)
  · intro e i hempty
    rcases startEvolution_shape e i with ⟨m, hm⟩ | ⟨ps, rc, hps, hne, _, heq⟩
    · rw [hm]; exact ⟨rfl, rfl⟩
    · rw [hempty] at hps
      injection hps with hps
      exact absurd hps.symm hne
  · intro e i hnone
    rcases startEvolution_shape e i with ⟨m, hm⟩ | ⟨ps, rc, _, _, hrc, heq⟩
    · rw [hm]; exact ⟨rfl, rfl⟩
    · rw [hnone] at hrc; exact absurd hrc (by simp)
  · intro e ps l mg p ct hps
    constructor
    · simp [startEvolution, resultOk, hps]
    · simp [startEvolution, hps]

/-- C6 witness: a concrete missing-checks call fails and leaves the engine
unchanged, and a concrete valid call installs the expected session. -/
theorem startEvolution_validation_behavior_witness :
    (resultOk (startEvolution ⟨none, 3⟩ ⟨some "p", none, none, none, none⟩).2 = false ∧
      (startEvolution ⟨none, 3⟩ ⟨some "p", none, none, none, none⟩).1 = (⟨none, 3⟩ : EvolutionaryEngine)) ∧
    (resultOk (startEvolution ⟨none, 3⟩ ⟨some "p", some [], none, none, none⟩).2 = true ∧
      (startEvolution ⟨none, 3⟩ ⟨some "p", some [], none, none, none⟩).1.evolutionState =
        some (initialState "p" [] ⟨some "p", some [], none, none, none⟩)) :=
  ⟨startEvolution_validation_behavior.2.2.1 ⟨none, 3⟩ ⟨some "p", none, none, none, none⟩ rfl,
   startEvolution_validation_behavior.2.2.2 ⟨none, 3⟩ "p" [] none none none (by decide)⟩

/-- C7 counterexample: a structured check supplied with the explicit
non-negative weight 0 is stored with weight 1 (the default), not 0: the JS
truthiness test `check.weight ? check.weight : 1.0` treats 0 as absent. -/
theorem weight_zero_is_not_stored :
    ((startEvolution ⟨none, 0⟩
        ⟨some "p", some [.record (some "c") (some 0)], none, none, none⟩).1.evolutionState.map
      (fun st => st.consistencyChecks.map (fun c => c.weight))) = some [1] ∧
    ¬ ((startEvolution ⟨none, 0⟩
        ⟨some "p", some [.record (some "c") (some 0)], none, none, none⟩).1.evolutionState.map
      (fun st => st.consistencyChecks.map (fun c => c.weight))) = some [0] := by
  constructor
  · rfl
  · intro h
    rw [startEvolution] at h
    simp [initialState, normalizeChecks, normalizeCheck] at h

/-- C7 (amended): a structured check's specified weight `w` is stored
exactly when `w ≠ 0`; an explicit weight 0 is treated like an unspecified
weight and defaults to 1.0, as do plain-string checks. -/
theorem specified_weight_storage :
    (∀ (e : EvolutionaryEngine) (ps : String) (d : Option String) (w : ℚ)
      (mg p : Option Int) (ct : Option ℚ), ps ≠ "" → w ≠ 0 →
      ∃ st, (startEvolution e ⟨some ps, some [.record d (some w)], mg, p, ct⟩).1.evolutionState =
        some st ∧ st.consistencyChecks = [{ id := 1, description := d, weight := w }]) ∧
    (∀ (i : Nat) (d : Option String),
      normalizeCheck i (.record d (some 0)) = { id := i + 1, description := d, weight := 1 }) ∧
    (∀ (i : Nat) (d : Option String),
      normalizeCheck i (.record d none) = { id := i + 1, description := d, weight := 1 }) ∧
    (∀ (i : Nat) (s : String),
      normalizeCheck i (.str s) = { id := i + 1, description := some s, weight := 1 }) := by
  refine ⟨?_, ?_, ?_, ?_⟩
  · intro e ps d w mg p ct hps hw
    refine ⟨initialState ps [.record d (some w)] ⟨some ps, some [.record d (some w)], mg, p, ct⟩,
      by simp [startEvolution, hps], ?_⟩
    simp [initialState, normalizeChecks, normalizeCheck, hw]
  · intro i d; simp [normalizeCheck]
  · intro i d; simp [normalizeCheck]
  · intro i s; simp [normalizeCheck]

/-- C7 witness: weight 2 is stored exactly for a concrete session. -/
theorem specified_weight_storage_witness :
    ∃ st, (startEvolution ⟨none, 0⟩
        ⟨some "p", some [.record (some "c") (some 2)], none, none, none⟩).1.evolutionState =
      some st ∧ st.consistencyChecks = [{ id := 1, description := some "c", weight := 2 }] :=
  specified_weight_storage.1 ⟨none, 0⟩ "p" (some "c") 2 none none none (by decide) (by decide)

/-- C2: a successful `evolveGeneration` evaluates its termination test in
order: convergence (max composite of the fully-scored subset at or above
the threshold) wins and reports "convergence"; otherwise exhaustion of the
generation budget reports "max_generations"; both completion cases set
`isComplete` and leave `currentGeneration` alone; when neither fires the
counter is incremented by exactly one and an "evolved" report returned. -/
theorem evolveGeneration_termination_order
    (e : EvolutionaryEngine) (st : EvolutionState)
    (hst : e.evolutionState = some st)
    (hok : resultOk (evolveGeneration e).2 = true) :
    (st.convergenceThreshold ≤ maxCompositeScore (fullyScoredOf st) →
      ∃ st', (evolveGeneration e).1.evolutionState = some st' ∧
        st'.currentGeneration = st.currentGeneration ∧ st'.isComplete = true ∧
        (evolveGeneration e).2 = .ok (.complete "convergence" st.currentGeneration
          st.bestSolution (maxCompositeScore (fullyScoredOf st))
          (avgCompositeScore (fullyScoredOf st)))) ∧
    (maxCompositeScore (fullyScoredOf st) < st.convergenceThreshold →
      st.maxGenerations - 1 ≤ (st.currentGeneration : Int) →
      ∃ st', (evolveGeneration e).1.evolutionState = some st' ∧
        st'.currentGeneration = st.currentGeneration ∧ st'.isComplete = true ∧
        (evolveGeneration e).2 = .ok (.complete "max_generations" st.currentGeneration
          st.bestSolution (maxCompositeScore (fullyScoredOf st))
          (avgCompositeScore (fullyScoredOf st)))) ∧
    (maxCompositeScore (fullyScoredOf st) < st.convergenceThreshold →
      (st.currentGeneration : Int) < st.maxGenerations - 1 →
      ∃ st' recs, (evolveGeneration e).1.evolutionState = some st' ∧
        st'.currentGeneration = st.currentGeneration + 1 ∧ st'.isComplete = st.isComplete ∧
        (evolveGeneration e).2 = .ok (.evolved (st.currentGeneration + 1)
          (avgCompositeScore (fullyScoredOf st)) (maxCompositeScore (fullyScoredOf st))
          (fullyScoredOf st).length recs)) := by
  rcases evolveGeneration_shape e with ⟨m, hm⟩ | ⟨st0, h, t, recs, hst0, hids, hfs, hrecs, heq⟩
  · rw [hm] at hok; simp [resultOk] at hok
  · rw [hst] at hst0
    injection hst0 with hsteq
    subst hsteq
    rw [heq, hfs]
    rw [evolveOutcome]
    by_cases hconv : st.convergenceThreshold ≤ maxCompositeScore (h :: t)
    · rw [if_pos (Or.inl hconv), if_pos hconv]
      refine ⟨fun _ => ⟨{ st with isComplete := true }, rfl, rfl, rfl, rfl⟩, ?_, ?_⟩
      · intro hlt _; exact absurd hconv (not_le_of_lt hlt)
      · intro hlt _; exact absurd hconv (not_le_of_lt hlt)
    · by_cases hexh : st.maxGenerations - 1 ≤ (st.currentGeneration : Int)
      · rw [if_pos (Or.inr hexh), if_neg hconv]
        refine ⟨fun hc => absurd hc hconv, fun _ _ =>
          ⟨{ st with isComplete := true }, rfl, rfl, rfl, rfl⟩, ?_⟩
        intro _ hcur
        exact absurd hexh (not_le_of_lt hcur)
      · rw [if_neg (by rw [not_or]; exact ⟨hconv, hexh⟩)]
        refine ⟨fun hc => absurd hc hconv, fun _ hx => absurd hx hexh, fun _ _ =>
          ⟨{ st with currentGeneration := st.currentGeneration + 1 }, recs, rfl, rfl, rfl, rfl⟩⟩

/-- C2 witness: on the concrete converged session, `evolveGeneration`
completes with reason "convergence" without touching the counter. -/
theorem evolveGeneration_termination_order_witness :
    ∃ st', (evolveGeneration engineW3).1.evolutionState = some st' ∧
      st'.currentGeneration = stW3.currentGeneration ∧ st'.isComplete = true ∧
      (evolveGeneration engineW3).2 = .ok (.complete "convergence" stW3.currentGeneration
        stW3.bestSolution (maxCompositeScore (fullyScoredOf stW3))
        (avgCompositeScore (fullyScoredOf stW3))) :=
  (evolveGeneration_termination_order engineW3 stW3 rfl
      (by norm_num [evolveGeneration, evolveOutcome, genSolutionIds, fullyScoredOf,
        currentGenSolutions, crossoverRecsFor, mapExcept, maxCompositeScore,
        engineW3, stW3, solW3, alookup, resultOk, List.filterMap_cons, List.filterMap_nil,
        List.filter_cons, List.filter_nil, List.foldl_cons, List.foldl_nil])).1
    (by norm_num [fullyScoredOf, currentGenSolutions, genSolutionIds, maxCompositeScore,
      stW3, solW3, alookup, List.filterMap_cons, List.filterMap_nil,
      List.filter_cons, List.filter_nil, List.foldl_cons, List.foldl_nil])

/-- C3: for every successful `evolveGeneration`, the crossover
recommendation list computed by the call has exactly one entry per
consistency check, in check order; each entry's `bestSolutionId` is the id
of a member of the fully-scored subset of the current generation attaining
the maximum score on that check; and ties break to the first occurrence in
the generation's iteration order: every strictly earlier member scores
strictly lower on that check. -/
theorem crossover_coverage_and_tiebreak
    (e : EvolutionaryEngine) (st : EvolutionState)
    (hst : e.evolutionState = some st)
    (hok : resultOk (evolveGeneration e).2 = true) :
    ∃ recs, crossoverRecsFor st (fullyScoredOf st) = .ok recs ∧
      (∀ (g : Nat) (a b : ℚ) (n : Nat) (rl : List CrossoverRecommendation),
        (evolveGeneration e).2 = .ok (.evolved g a b n rl) → rl = recs) ∧
      recs.length = st.consistencyChecks.length ∧
      ∀ (i : Nat) (chk : ConsistencyCheck), st.consistencyChecks[i]? = some chk →
        ∃ r, recs[i]? = some r ∧ r.checkId = chk.id ∧
          ∃ (j : Nat) (sol : Solution), (fullyScoredOf st)[j]? = some sol ∧
            r.bestSolutionId = sol.id ∧
            (∀ x ∈ fullyScoredOf st, checkScoreOf chk.id x ≤ checkScoreOf chk.id sol) ∧
            (∀ x ∈ (fullyScoredOf st).take j, checkScoreOf chk.id x < checkScoreOf chk.id sol) := by
  rcases evolveGeneration_shape e with ⟨m, hm⟩ | ⟨st0, h, t, recs, hst0, hids, hfs, hrecs, heq⟩
  · rw [hm] at hok; simp [resultOk] at hok
  · rw [hst] at hst0
    injection hst0 with hsteq
    subst hsteq
    rw [hfs]
    refine ⟨recs, hrecs, ?_, ?_, ?_⟩
    · intro g a b n rl hpay
      rw [heq, evolveOutcome] at hpay
      split at hpay
      · exact absurd (Except.ok.inj hpay) (by intro hcon; cases hcon)
      · obtain ⟨_, _, _, _, hrl⟩ := EvolvePayload.evolved.inj (Except.ok.inj hpay)
        exact hrl.symm
    · exact (mapExcept_ok _ _ _ hrecs).1
    · intro i chk hchk
      obtain ⟨r, hr, hfr⟩ := (mapExcept_ok _ _ _ hrecs).2 i chk hchk
      refine ⟨r, hr, ?_⟩
      rw [crossoverRecsFor.eq_def] at hrecs
      revert hfr
      cases hd : chk.description with
      | none => intro hfr; simp [hd] at hfr
      | some d =>
        intro hfr
        simp only [hd] at hfr
        injection hfr with hfr
        subst hfr
        refine ⟨rfl, ?_⟩
        obtain ⟨j, hjlen, hjget, hmax, hlt⟩ := pickBest_spec (checkScoreOf chk.id) t h
        exact ⟨j, pickBest (checkScoreOf chk.id) h t, hjget, rfl, hmax, hlt⟩

/-- C3 witness: the converged concrete session's recommendation list has
one entry for its one check, drawn from the fully-scored subset with
first-occurrence tie-breaking. -/
theorem crossover_coverage_and_tiebreak_witness :
    ∃ recs, crossoverRecsFor stW3 (fullyScoredOf stW3) = .ok recs ∧
      (∀ (g : Nat) (a b : ℚ) (n : Nat) (rl : List CrossoverRecommendation),
        (evolveGeneration engineW3).2 = .ok (.evolved g a b n rl) → rl = recs) ∧
      recs.length = stW3.consistencyChecks.length ∧
      ∀ (i : Nat) (chk : ConsistencyCheck), stW3.consistencyChecks[i]? = some chk →
        ∃ r, recs[i]? = some r ∧ r.checkId = chk.id ∧
          ∃ (j : Nat) (sol : Solution), (fullyScoredOf stW3)[j]? = some sol ∧
            r.bestSolutionId = sol.id ∧
            (∀ x ∈ fullyScoredOf stW3, checkScoreOf chk.id x ≤ checkScoreOf chk.id sol) ∧
            (∀ x ∈ (fullyScoredOf stW3).take j, checkScoreOf chk.id x < checkScoreOf chk.id sol) :=
  crossover_coverage_and_tiebreak engineW3 stW3 rfl
    (by norm_num [evolveGeneration, evolveOutcome, genSolutionIds, fullyScoredOf,
      currentGenSolutions, crossoverRecsFor, mapExcept, maxCompositeScore,
      engineW3, stW3, solW3, alookup, resultOk, List.filterMap_cons, List.filterMap_nil,
      List.filter_cons, List.filter_nil, List.foldl_cons, List.foldl_nil])

theorem scoreSolution_success_eq
    (e : EvolutionaryEngine) (i : ScoreInput) (st : EvolutionState) (sid cid : Nat) (s : ℚ)
    (sol : Solution) (chk : ConsistencyCheck)
    (hst : e.evolutionState = some st) (hsid : i.solutionId = some sid)
    (hcid : i.checkId = some cid) (hs : i.score = some s)
    (h0 : 0 ≤ s) (h1 : s ≤ 1)
    (hsol : alookup sid st.solutions = some sol)
    (hchk : st.consistencyChecks.find? (fun c => c.id == cid) = some chk) :
    scoreSolution e i =
      ({ e with evolutionState := some (scoreApply st sid cid s sol) },
       .ok (scorePayloadOf st cid s sol)) := by
  have hrange : ¬(s < 0 ∨ 1 < s) := by
    rw [not_or, not_lt, not_lt]
    exact ⟨h0, h1⟩
  simp only [scoreSolution, hst, hsid, hcid, hs, if_neg hrange, hsol, hchk]

theorem scoredSolutionOf_idem (checks : List ConsistencyCheck) (sol : Solution)
    (cid : Nat) (s : ℚ) :
    scoredSolutionOf checks (scoredSolutionOf checks sol cid s) cid s =
      scoredSolutionOf checks sol cid s := by
  simp only [scoredSolutionOf, setScore_setScore_same]

theorem scoreApply_idem (st : EvolutionState) (sid cid : Nat) (s : ℚ) (sol : Solution)
    (hsol : alookup sid st.solutions = some sol) :
    scoreApply (scoreApply st sid cid s sol) sid cid s
      (scoredSolutionOf st.consistencyChecks sol cid s) = scoreApply st sid cid s sol := by
  have hsol' := alookup_aupdate_self
    (scoredSolutionOf st.consistencyChecks sol cid s) hsol
  simp only [scoreApply, scoredSolutionOf_idem, aupdate_eq_of_alookup hsol']
  cases hb : st.bestSolution.bind
      (fun b => alookup b (aupdate sid (scoredSolutionOf st.consistencyChecks sol cid s) st.solutions)) with
  | none =>
    simp only [Option.bind_eq_bind, Option.some_bind, hsol', lt_irrefl, if_neg (lt_irrefl _),
      ite_self]
  | some best =>
    by_cases hlt : best.compositeScore < (scoredSolutionOf st.consistencyChecks sol cid s).compositeScore
    · simp only [if_pos hlt, Option.bind_eq_bind, Option.some_bind, hsol',
        if_neg (lt_irrefl _)]
    · simp only [if_neg hlt]
      obtain ⟨bid, hbid, hbl⟩ := Option.bind_eq_some.mp hb
      simp only [hbid, Option.bind_eq_bind, Option.some_bind, hbl, if_neg hlt]

/-- C9: scoring is idempotent: after a successful `scoreSolution`,
repeating the identical call returns the identical engine (so the target
solution's scores map and compositeScore equal what the single call
produced) and the identical success payload. -/
theorem scoreSolution_idempotent (e : EvolutionaryEngine) (i : ScoreInput)
    (hok : resultOk (scoreSolution e i).2 = true) :
    scoreSolution (scoreSolution e i).1 i = scoreSolution e i := by
  rcases scoreSolution_shape e i with ⟨m, hm⟩ |
    ⟨st, sid, cid, s, sol, chk, hst, hsid, hcid, hs, h0, h1, hsol, hchk, heq⟩
  · rw [hm] at hok; simp [resultOk] at hok
  · rw [heq]
    have hsol2 : alookup sid (scoreApply st sid cid s sol).solutions =
        some (scoredSolutionOf st.consistencyChecks sol cid s) := by
      simp only [scoreApply]
      exact alookup_aupdate_self _ hsol
    have hchk2 : (scoreApply st sid cid s sol).consistencyChecks.find?
        (fun c => c.id == cid) = some chk := hchk
    rw [scoreSolution_success_eq _ i (scoreApply st sid cid s sol) sid cid s
      (scoredSolutionOf st.consistencyChecks sol cid s) chk rfl hsid hcid hs h0 h1 hsol2 hchk2]
    rw [scoreApply_idem st sid cid s sol hsol]
    simp only [scorePayloadOf, scoredSolutionOf, setScore_setScore_same, scoreApply]

/-- C9 witness: re-scoring the concrete solution with the same arguments
reproduces the engine of the single call. -/
theorem scoreSolution_idempotent_witness :
    scoreSolution (scoreSolution engineW2 ⟨some 0, some 1, some 1⟩).1 ⟨some 0, some 1, some 1⟩ =
      scoreSolution engineW2 ⟨some 0, some 1, some 1⟩ :=
  scoreSolution_idempotent engineW2 ⟨some 0, some 1, some 1⟩
    (by norm_num [scoreSolution, engineW2, stW2, solW, alookup, resultOk, List.find?])

/-- C10: a successful `scoreSolution` changes only the targeted solution's
`scores[checkId]` entry and `compositeScore` and possibly the session's
`bestSolution`; the problem statement, checks, generation counters,
configuration, generation history, completion flag, start time, the
id-generator state, every other solution, and every other score entry of
the target are unchanged. -/
theorem scoreSolution_frame
    (e : EvolutionaryEngine) (i : ScoreInput) (st : EvolutionState) (sid cid : Nat) (s : ℚ)
    (hst : e.evolutionState = some st)
    (hsid : i.solutionId = some sid) (hcid : i.checkId = some cid) (hs : i.score = some s)
    (hok : resultOk (scoreSolution e i).2 = true) :
    ∃ st' sol sol',
      (scoreSolution e i).1.evolutionState = some st' ∧
      (scoreSolution e i).1.nextId = e.nextId ∧
      st'.problemStatement = st.problemStatement ∧
      st'.consistencyChecks = st.consistencyChecks ∧
      st'.currentGeneration = st.currentGeneration ∧
      st'.maxGenerations = st.maxGenerations ∧
      st'.populationSize = st.populationSize ∧
      st'.convergenceThreshold = st.convergenceThreshold ∧
      st'.generationHistory = st.generationHistory ∧
      st'.isComplete = st.isComplete ∧
      st'.startTime = st.startTime ∧
      (∀ id, id ≠ sid → alookup id st'.solutions = alookup id st.solutions) ∧
      alookup sid st.solutions = some sol ∧
      alookup sid st'.solutions = some sol' ∧
      sol'.id = sol.id ∧ sol'.content = sol.content ∧ sol'.generation = sol.generation ∧
      sol'.parentSolutions = sol.parentSolutions ∧ sol'.timestamp = sol.timestamp ∧
      sol'.scores = setScore cid s sol.scores ∧
      (∀ c, c ≠ cid → alookup c sol'.scores = alookup c sol.scores) := by
  rcases scoreSolution_shape e i with ⟨m, hm⟩ |
    ⟨st0, sid0, cid0, s0, sol, chk, hst0, hsid0, hcid0, hs0, h0, h1, hsol, hchk, heq⟩
  · rw [hm] at hok; simp [resultOk] at hok
  · rw [hst] at hst0
    injection hst0 with hsteq
    subst hsteq
    rw [hsid] at hsid0
    injection hsid0 with hsideq
    subst hsideq
    rw [hcid] at hcid0
    injection hcid0 with hcideq
    subst hcideq
    rw [hs] at hs0
    injection hs0 with hseq
    subst hseq
    rw [heq]
    refine ⟨scoreApply st sid cid s sol, sol,
      scoredSolutionOf st.consistencyChecks sol cid s,
      rfl, rfl, rfl, rfl, rfl, rfl, rfl, rfl, rfl, rfl, rfl, ?_, hsol, ?_, rfl, rfl, rfl,
      rfl, rfl, rfl, ?_⟩
    · intro id hne
      simp only [scoreApply]
      exact alookup_aupdate_ne hne _ _
    · simp only [scoreApply]
      exact alookup_aupdate_self _ hsol
    · intro c hne
      simp only [scoredSolutionOf]
      exact alookup_setScore_ne hne _ _

/-- C10 witness: the concrete scoring call leaves the rest of the session
intact. -/
theorem scoreSolution_frame_witness :
    ∃ st' sol sol',
      (scoreSolution engineW2 ⟨some 0, some 1, some 1⟩).1.evolutionState = some st' ∧
      (scoreSolution engineW2 ⟨some 0, some 1, some 1⟩).1.nextId = engineW2.nextId ∧
      st'.problemStatement = stW2.problemStatement ∧
      st'.consistencyChecks = stW2.consistencyChecks ∧
      st'.currentGeneration = stW2.currentGeneration ∧
      st'.maxGenerations = stW2.maxGenerations ∧
      st'.populationSize = stW2.populationSize ∧
      st'.convergenceThreshold = stW2.convergenceThreshold ∧
      st'.generationHistory = stW2.generationHistory ∧
      st'.isComplete = stW2.isComplete ∧
      st'.startTime = stW2.startTime ∧
      (∀ id, id ≠ 0 → alookup id st'.solutions = alookup id stW2.solutions) ∧
      alookup 0 stW2.solutions = some sol ∧
      alookup 0 st'.solutions = some sol' ∧
      sol'.id = sol.id ∧ sol'.content = sol.content ∧ sol'.generation = sol.generation ∧
      sol'.parentSolutions = sol.parentSolutions ∧ sol'.timestamp = sol.timestamp ∧
      sol'.scores = setScore 1 1 sol.scores ∧
      (∀ c, c ≠ 1 → alookup c sol'.scores = alookup c sol.scores) :=
  scoreSolution_frame engineW2 ⟨some 0, some 1, some 1⟩ stW2 0 1 1 rfl rfl rfl rfl
    (by norm_num [scoreSolution, engineW2, stW2, solW, alookup, resultOk, List.find?])

theorem alookup_single {β : Type} (k n : Nat) (v : β) :
    alookup k [(n, v)] = if k = n then some v else none := by
  rw [alookup]
  split <;> simp [alookup]

theorem engineInv_start (e : EvolutionaryEngine) (i : StartInput) (h : EngineInv e) :
    EngineInv (startEvolution e i).1 := by
  rcases startEvolution_shape e i with ⟨m, hm⟩ | ⟨ps, rc, _, _, _, heq⟩
  · rw [hm]; exact h
  · rw [heq]
    intro st hst
    injection hst with hst
    subst hst
    refine ⟨?_, ?_, ?_, ?_⟩ <;> intro a b hl
    · simp [initialState, alookup] at hl
    · simp [initialState, alookup] at hl
    · simp [initialState, alookup] at hl
    · simp [initialState, alookup] at hl

theorem engineInv_add (e : EvolutionaryEngine) (i : AddInput) (h : EngineInv e) :
    EngineInv (addSolution e i).1 := by
  rcases addSolution_shape e i with ⟨m, hm⟩ | ⟨st, content, hst, _, _, heq⟩
  · rw [hm]; exact h
  · rw [heq]
    intro st' hst'
    injection hst' with hst'
    subst hst'
    have inv := h st hst
    have hfresh : alookup e.nextId st.solutions = none := by
      cases hn : alookup e.nextId st.solutions with
      | none => rfl
      | some v => exact absurd (inv.keysBound _ v hn) (lt_irrefl _)
    set n := e.nextId with hn
    set sol := newSolution st n content ((i.parentSolutions).getD []) with hsoldef
    have hlook : ∀ (id : Nat),
        alookup id (addApply st n content ((i.parentSolutions).getD [])).solutions =
          if id = n then some sol else alookup id st.solutions := by
      intro id
      have hsolid : sol.id = n := rfl
      simp only [addApply, ← hsoldef, hsolid]
      by_cases hid : id = n
      · subst hid
        rw [if_pos rfl, alookup_append_of_none hfresh, alookup_single, if_pos rfl]
      · rw [if_neg hid]
        cases ho : alookup id st.solutions with
        | some v => rw [alookup_append_of_some ho]
        | none => rw [alookup_append_of_none ho, alookup_single, if_neg hid]
    have hhist : (addApply st n content ((i.parentSolutions).getD [])).generationHistory =
        pushHist st.currentGeneration n st.generationHistory := rfl
    refine ⟨?_, ?_, ?_, ?_⟩
    · intro id sol0 hl
      rw [hlook] at hl
      split at hl
      · next hid => injection hl with hl; subst hl; subst hid; rfl
      · exact inv.keysMatch _ _ hl
    · intro id sol0 hl
      rw [hlook] at hl
      split at hl
      · next hid => subst hid; exact Nat.lt_succ_self _
      · exact Nat.lt_succ_of_lt (inv.keysBound _ _ hl)
    · intro g ids hg id hid
      rw [hhist] at hg
      by_cases hgg : g = st.currentGeneration
      · subst hgg
        rw [alookup_pushHist_self] at hg
        injection hg with hg
        subst hg
        rcases List.mem_append.mp hid with hold | hnew
        · cases ho : alookup st.currentGeneration st.generationHistory with
          | none => rw [ho] at hold; simp at hold
          | some oldIds =>
            rw [ho] at hold
            obtain ⟨sol1, hl1, hg1⟩ := inv.histSound st.currentGeneration oldIds ho id hold
            refine ⟨sol1, ?_, hg1⟩
            rw [hlook, if_neg ?_]
            · exact hl1
            · intro hcon; subst hcon; rw [hfresh] at hl1; cases hl1
        · have : id = n := by simpa using hnew
          subst this
          exact ⟨sol, by rw [hlook, if_pos rfl], rfl⟩
      · rw [alookup_pushHist_ne hgg] at hg
        obtain ⟨sol1, hl1, hg1⟩ := inv.histSound g ids hg id hid
        refine ⟨sol1, ?_, hg1⟩
        rw [hlook, if_neg ?_]
        · exact hl1
        · intro hcon; subst hcon; rw [hfresh] at hl1; cases hl1
    · intro id sol0 hl
      rw [hlook] at hl
      rw [hhist]
      split at hl
      · next hid =>
        injection hl with hl
        subst hl
        subst hid
        refine ⟨(alookup st.currentGeneration st.generationHistory).getD [] ++ [n], ?_, ?_⟩
        · exact alookup_pushHist_self _ _ _
        · simp
      · obtain ⟨ids, hg, hmem⟩ := inv.inOwnBucket id sol0 hl
        by_cases hgg : sol0.generation = st.currentGeneration
        · rw [hgg] at hg ⊢
          refine ⟨(alookup st.currentGeneration st.generationHistory).getD [] ++ [n], ?_, ?_⟩
          · exact alookup_pushHist_self _ _ _
          · rw [hg]
            simp [hmem]
        · exact ⟨ids, by rw [alookup_pushHist_ne hgg]; exact hg, hmem⟩

theorem engineInv_score (e : EvolutionaryEngine) (i : ScoreInput) (h : EngineInv e) :
    EngineInv (scoreSolution e i).1 := by
  rcases scoreSolution_shape e i with ⟨m, hm⟩ |
    ⟨st, sid, cid, s, sol, chk, hst, _, _, _, _, _, hsol, _, heq⟩
  · rw [hm]; exact h
  · rw [heq]
    intro st' hst'
    injection hst' with hst'
    subst hst'
    have inv := h st hst
    set sol' := scoredSolutionOf st.consistencyChecks sol cid s with hsol'def
    have hlook : ∀ (id : Nat),
        alookup id (scoreApply st sid cid s sol).solutions =
          if id = sid then some sol' else alookup id st.solutions := by
      intro id
      simp only [scoreApply]
      by_cases hid : id = sid
      · subst hid
        rw [if_pos rfl]
        exact alookup_aupdate_self _ hsol
      · rw [if_neg hid, alookup_aupdate_ne hid]
    have hhist : (scoreApply st sid cid s sol).generationHistory = st.generationHistory := rfl
    have hsid' : sol'.id = sol.id := rfl
    have hsgen : sol'.generation = sol.generation := rfl
    refine ⟨?_, ?_, ?_, ?_⟩
    · intro id sol0 hl
      rw [hlook] at hl
      split at hl
      · next hid =>
        injection hl with hl
        subst hl hid
        rw [hsid']
        exact inv.keysMatch _ _ hsol
      · exact inv.keysMatch _ _ hl
    · intro id sol0 hl
      rw [hlook] at hl
      split at hl
      · next hid => subst hid; exact inv.keysBound _ _ hsol
      · exact inv.keysBound _ _ hl
    · intro g ids hg id hid
      rw [hhist] at hg
      obtain ⟨sol1, hl1, hg1⟩ := inv.histSound g ids hg id hid
      by_cases hidsid : id = sid
      · subst hidsid
        rw [hsol] at hl1
        injection hl1 with hl1
        subst hl1
        exact ⟨sol', by rw [hlook, if_pos rfl], by rw [hsgen]; exact hg1⟩
      · exact ⟨sol1, by rw [hlook, if_neg hidsid]; exact hl1, hg1⟩
    · intro id sol0 hl
      rw [hlook] at hl
      rw [hhist]
      split at hl
      · next hid =>
        injection hl with hl
        subst hl hid
        rw [hsgen]
        exact inv.inOwnBucket _ _ hsol
      · exact inv.inOwnBucket _ _ hl

theorem engineInv_evolve (e : EvolutionaryEngine) (h : EngineInv e) :
    EngineInv (evolveGeneration e).1 := by
  rcases evolveGeneration_shape e with ⟨m, hm⟩ | ⟨st, hh, t, recs, hst, _, _, _, heq⟩
  · rw [hm]; exact h
  · rw [heq]
    have inv := h st hst
    rw [evolveOutcome]
    split
    · intro st' hst'
      injection hst' with hst'
      subst hst'
      exact ⟨inv.keysMatch, inv.keysBound, inv.histSound, inv.inOwnBucket⟩
    · intro st' hst'
      injection hst' with hst'
      subst hst'
      exact ⟨inv.keysMatch, inv.keysBound, inv.histSound, inv.inOwnBucket⟩

theorem engineInv_status (e : EvolutionaryEngine) (h : EngineInv e) :
    EngineInv (getStatus e).1 := by
  rw [getStatus]
  split <;> exact h

theorem reachable_engineInv {e : EvolutionaryEngine} (he : Reachable e) : EngineInv e := by
  induction he with
  | init n => intro st hst; cases hst
  | step _ hstep ih =>
    cases hstep with
    | start i => exact engineInv_start _ i ih
    | add i => exact engineInv_add _ i ih
    | score i => exact engineInv_score _ i ih
    | evolve => exact engineInv_evolve _ ih
    | status => exact engineInv_status _ ih

/-- C8: in every engine reachable from an idle engine by the public
operations, every solution id listed in a generation bucket refers to a
solution whose `generation` field equals that bucket's index, and every id
in the `solutions` map appears in exactly one bucket (its own generation's,
and in no bucket of any other generation). -/
theorem generation_history_invariant (e : EvolutionaryEngine) (he : Reachable e)
    (st : EvolutionState) (hst : e.evolutionState = some st) :
    (∀ (g : Nat) (ids : List Nat), alookup g st.generationHistory = some ids →
      ∀ id ∈ ids, ∃ sol, alookup id st.solutions = some sol ∧ sol.generation = g) ∧
    (∀ (id : Nat) (sol : Solution), alookup id st.solutions = some sol →
      ∃ (g : Nat) (ids : List Nat), alookup g st.generationHistory = some ids ∧ id ∈ ids ∧
        ∀ (g' : Nat) (ids' : List Nat), alookup g' st.generationHistory = some ids' →
          id ∈ ids' → g' = g) := by
  have inv := reachable_engineInv he st hst
  refine ⟨inv.histSound, ?_⟩
  intro id sol hl
  obtain ⟨ids, hg, hmem⟩ := inv.inOwnBucket id sol hl
  refine ⟨sol.generation, ids, hg, hmem, ?_⟩
  intro g' ids' hg' hmem'
  obtain ⟨sol2, hl2, hgen2⟩ := inv.histSound g' ids' hg' id hmem'
  rw [hl] at hl2
  injection hl2 with hsoleq
  rw [← hsoleq] at hgen2
  exact hgen2.symm

/-- C8 witness: the invariant holds in the concrete reachable engine with
one started session and one added solution. -/
theorem generation_history_invariant_witness :
    (∀ (g : Nat) (ids : List Nat), alookup g stR2.generationHistory = some ids →
      ∀ id ∈ ids, ∃ sol, alookup id stR2.solutions = some sol ∧ sol.generation = g) ∧
    (∀ (id : Nat) (sol : Solution), alookup id stR2.solutions = some sol →
      ∃ (g : Nat) (ids : List Nat), alookup g stR2.generationHistory = some ids ∧ id ∈ ids ∧
        ∀ (g' : Nat) (ids' : List Nat), alookup g' stR2.generationHistory = some ids' →
          id ∈ ids' → g' = g) :=
  generation_history_invariant engineR2
    (Reachable.step (Reachable.step (Reachable.init 0) (Step.start engineR0 startInputR))
      (Step.add engineR1 ⟨some "x", none⟩))
    stR2 rfl

/-- C1 counterexample: two successful `scoreSolution` calls under which
`bestSolution.compositeScore` strictly decreases, from 1 to 0.  The second
call overwrites the best solution's only score with 0; because
`bestSolution` aliases the stored solution, the recomputed composite is
read through the reference and the strict greater-than update never fires. -/
theorem best_composite_can_decrease :
    resultOk (scoreSolution engineW2 ⟨some 0, some 1, some 1⟩).2 = true ∧
    resultOk (scoreSolution (scoreSolution engineW2 ⟨some 0, some 1, some 1⟩).1
      ⟨some 0, some 1, some 0⟩).2 = true ∧
    bestComposite (scoreSolution engineW2 ⟨some 0, some 1, some 1⟩).1 = some 1 ∧
    bestComposite (scoreSolution (scoreSolution engineW2 ⟨some 0, some 1, some 1⟩).1
      ⟨some 0, some 1, some 0⟩).1 = some 0 := by
  refine ⟨?_, ?_, ?_, ?_⟩ <;>
    norm_num [scoreSolution, scoreApply, scoredSolutionOf, scorePayloadOf, engineW2, stW2,
      solW, alookup, aupdate, setScore, compositeOf, bestComposite, resultOk, List.find?,
      List.foldl_cons, List.foldl_nil]

/-- C1 (amended): within a session whose check weights are non-negative
with positive total and whose target solution's cached composite equals the
composite of its stored scores (true of every engine-built solution),
`bestSolution.compositeScore` does not decrease over a successful
`scoreSolution` call provided the call, when it targets the solution
currently referenced by `bestSolution`, does not overwrite an existing
score with a strictly lower value.  (Without that proviso the claim fails:
see the counterexample.) -/
theorem bestComposite_monotone
    (e : EvolutionaryEngine) (st : EvolutionState) (sid cid : Nat) (s : ℚ)
    (sol : Solution) (chk : ConsistencyCheck) (b : ℚ)
    (hst : e.evolutionState = some st)
    (hw : ∀ c ∈ st.consistencyChecks, 0 ≤ c.weight)
    (htw : 0 < totalWeightOf st.consistencyChecks)
    (hsol : alookup sid st.solutions = some sol)
    (hchk : st.consistencyChecks.find? (fun c => c.id == cid) = some chk)
    (h0 : 0 ≤ s) (h1 : s ≤ 1)
    (hcache : sol.compositeScore = compositeOf st.consistencyChecks sol.scores)
    (hnolower : st.bestSolution = some sid → (alookup cid sol.scores).getD 0 ≤ s)
    (hb : bestComposite e = some b) :
    ∃ b', bestComposite (scoreSolution e ⟨some sid, some cid, some s⟩).1 = some b' ∧
      b ≤ b' := by
  rw [scoreSolution_success_eq e ⟨some sid, some cid, some s⟩ st sid cid s sol chk hst
    rfl rfl rfl h0 h1 hsol hchk]
  rw [bestComposite, hst] at hb
  simp only [Option.some_bind] at hb
  obtain ⟨bid, hbid, hbl⟩ := Option.bind_eq_some.mp hb
  obtain ⟨bsol, hbsol, hbcomp⟩ := Option.map_eq_some'.mp hbl
  set sol' := scoredSolutionOf st.consistencyChecks sol cid s with hsol'def
  have hsol'comp : sol'.compositeScore =
      compositeOf st.consistencyChecks (setScore cid s sol.scores) := rfl
  have hupd : alookup sid (aupdate sid sol' st.solutions) = some sol' :=
    alookup_aupdate_self _ hsol
  by_cases hbsid : bid = sid
  · subst hbsid
    rw [hsol] at hbsol
    injection hbsol with hbsoleq
    have hble : b ≤ sol'.compositeScore := by
      rw [← hbcomp, ← hbsoleq, hcache, hsol'comp]
      exact compositeOf_setScore_mono hw htw (hnolower hbid)
    refine ⟨sol'.compositeScore, ?_, hble⟩
    rw [bestComposite]
    simp only [Option.some_bind, scoreApply, ← hsol'def, hbid, hupd, lt_irrefl,
      if_neg (lt_irrefl _)]
    simp [hupd]
  · have hbl' : alookup bid (aupdate sid sol' st.solutions) = some bsol := by
      rw [alookup_aupdate_ne hbsid]
      exact hbsol
    by_cases hlt : bsol.compositeScore < sol'.compositeScore
    · refine ⟨sol'.compositeScore, ?_, le_of_lt (hbcomp ▸ hlt)⟩
      rw [bestComposite]
      simp only [Option.some_bind, scoreApply, ← hsol'def, hbid, hbl', if_pos hlt]
      simp [hupd]
    · refine ⟨b, ?_, le_refl b⟩
      rw [bestComposite]
      simp only [Option.some_bind, scoreApply, ← hsol'def, hbid, hbl', if_neg hlt]
      simp [hbcomp]

/-- C1 witness: re-scoring the concrete best solution with the same score 1
keeps the best composite at 1. -/
theorem bestComposite_monotone_witness :
    ∃ b', bestComposite (scoreSolution engineW3 ⟨some 0, some 1, some 1⟩).1 = some b' ∧
      (1 : ℚ) ≤ b' :=
  bestComposite_monotone engineW3 stW3 0 1 1 solW3 ⟨1, some "alpha", 1⟩ 1
    rfl (by decide) (by norm_num [totalWeightOf, stW3]) (by decide) rfl
    (by norm_num) (by norm_num)
    (by norm_num [solW3, compositeOf, stW3, alookup, List.foldl_cons, List.foldl_nil])
    (fun _ => by norm_num [solW3, alookup])
    (by norm_num [bestComposite, engineW3, stW3, solW3, alookup])

end EventHorizon
